import Mathlib

/-!
Verification of `src/flip/data_utils.py` (AdaptFlip).

The embedding models, directly from the source:
  * `assign_cluster_ids` (NCF_NeighborWise_Dataset.assign_cluster_ids,
    lines 236-279; CDAE_Neighbor_Data.assign_cluster_ids, lines 440-471,
    is the same algorithm over the user axis) — the greedy similarity
    clustering with the `-1` sentinel, the early-stop at
    `unique_samples // group_size` and the repair pass;
  * `NCF_Dataset` (lines 83-176): construction, `ng_sample` (negative
    sampling with the rejection loop), `flip_labels`, `get_state`,
    `__len__`, and the grouped `__getitem__` views of the subclasses.

Machine integers are modelled as `Nat`/`Int`; numpy arrays as `List`;
the sparse `train_mat` as its list of set (user, item) pairs with a
point-membership query; numpy's random draws as an external stream
`rng : Nat → Nat`, taken modulo `item_num` (a uniform draw in
`[0, item_num)`); the unbounded rejection loop of `ng_sample` as a
fuel-indexed recursion returning `Option` (`none` when the fuel runs
out). Python `assert` failures are modelled as `none` of an
`Option`-returning method.

The similarity ranking (`np.argsort(-similarity_matrix[sample])`) is
the Similarity Provider interface: a function `rank : Nat → List Nat`
giving, for each entity, all entities in descending similarity order
with the entity itself first (cosine self-similarity is maximal); this
contract is `ValidRanking`.
-/

namespace AdaptFlip

/-! ### List helpers -/

/-- Number of `-1` (sentinel) entries of a cluster-id array. -/
def countNeg (l : List Int) : Nat := (l.filter (fun v => v == -1)).length

/-! ### Cluster Assignment Engine

`NCF_NeighborWise_Dataset.assign_cluster_ids` (and the identical
`CDAE_Neighbor_Data.assign_cluster_ids`), src/flip/data_utils.py
lines 236-279 / 440-471.  `N` is `unique_samples` (user_num or
item_num per `neighbor_type`), `g` is `self.group_size`, `rank s` is
`np.argsort(-similarity_matrix[sample])` as a list. -/

/-- The count `cluster_num = unique_samples // group_size + (unique_samples % group_size != 0)`
(source lines 243-246 / 443). -/
def cluster_num (N g : Nat) : Nat := N / g + (if N % g != 0 then 1 else 0)

/-- The inner loop over `similar_samples[1:]` (source lines 263-268):
assign each still-unassigned candidate to `cid` until the running
`group_size` counter `sz` reaches `gs` (`self.group_size`). -/
def walk (cid : Int) (gs : Nat) : List Nat → List Int → Nat → List Int
  | [], clusters, _ => clusters
  | c :: rest, clusters, sz =>
    if clusters.getD c 0 == -1 then
      let clusters' := clusters.set c cid
      if sz + 1 ≥ gs then clusters' else walk cid gs rest clusters' (sz + 1)
    else walk cid gs rest clusters sz

/-- The outer loop `for sample in range(unique_samples)` (source lines
251-269): break once `cluster_id == unique_samples // group_size`,
skip assigned samples, otherwise seed a new cluster and fill it from
the similarity ranking (the walk is guarded by
`group_size = 1; if group_size < self.group_size`).
Returns the cluster array and the final `cluster_id`. -/
def assignLoop (N g : Nat) (rank : Nat → List Nat) :
    List Nat → List Int → Nat → List Int × Nat
  | [], clusters, cid => (clusters, cid)
  | s :: rest, clusters, cid =>
    if cid == N / g then (clusters, cid)
    else if clusters.getD s 0 != -1 then assignLoop N g rank rest clusters cid
    else
      let clusters1 := clusters.set s (cid : Int)
      let clusters2 :=
        if 1 < g then walk (cid : Int) g ((rank s).drop 1) clusters1 1
        else clusters1
      assignLoop N g rank rest clusters2 (cid + 1)

/-- Function `assign_cluster_ids`: sentinel-initialised array, greedy loop, then
the repair pass (source lines 248-274): if the loop exited with
`cluster_id < cluster_num`, every still-unassigned sample is given the
exit `cluster_id`. -/
def assign_cluster_ids (N g : Nat) (rank : Nat → List Nat) : List Int :=
  let res := assignLoop N g rank (List.range N) (List.replicate N (-1)) 0
  if res.2 < cluster_num N g then
    res.1.map (fun v => if v == -1 then (res.2 : Int) else v)
  else res.1

/-- The Similarity Provider contract (spec §4.1, §6): for each entity
`i < N`, the ranking lists all `N` entities exactly once, in
descending similarity, with `i` itself first (self-similarity is
maximal for cosine similarity). -/
def ValidRanking (N : Nat) (rank : Nat → List Nat) : Prop :=
  ∀ i, i < N → (rank i).head? = some i ∧ List.Perm (rank i) (List.range N)

/-- The constructor check of `NCF_NeighborWise_Dataset.__init__` /
`CDAE_Neighbor_Data.__init__` (source lines 219-227 / 431-438):
`assert group_size >= 1`, run `assign_cluster_ids`, then
`assert self.cluster_num == np.unique(self.clusters_per_sample).shape[0]`.
`none` models an assertion failure. -/
def NCF_NeighborWise_init (N g : Nat) (rank : Nat → List Nat) :
    Option (List Int) :=
  if g < 1 then none
  else
    let clusters := assign_cluster_ids N g rank
    if cluster_num N g == clusters.dedup.length then some clusters else none

/-! ### NCF_Dataset (src/flip/data_utils.py lines 83-176)

Fields mirror the Python attributes.  The `*_fill` attributes do not
exist in Python until `ng_sample` runs; they are initialised empty
here and only the post-`ng_sample` state is used by the grouped-view
theorems.  Labels are `Int` (numpy int32 arithmetic `1 - v` is exact). -/

structure NCFDataset where
  user_num : Nat
  item_num : Nat
  features : List (Nat × Nat)
  train_mat : List (Nat × Nat)
  true_labels : List Int
  is_training : Nat
  num_ng : Nat
  labels : List Int
  train_labels : List Int
  features_fill : List (Nat × Nat)
  labels_fill : List Int
  true_labels_fill : List Int
  train_labels_fill : List Int
deriving DecidableEq

/-- Constructor `NCF_Dataset.__init__` (lines 84-95): stores the inputs and sets
`self.labels = np.ones(len(self.features))` and
`self.train_labels = np.ones(len(self.features))`. -/
def NCFDataset.init (user_num item_num : Nat) (features train_mat : List (Nat × Nat))
    (true_labels : List Int) (is_training num_ng : Nat) : NCFDataset :=
  { user_num := user_num
    item_num := item_num
    features := features
    train_mat := train_mat
    true_labels := true_labels
    is_training := is_training
    num_ng := num_ng
    labels := List.replicate features.length 1
    train_labels := List.replicate features.length 1
    features_fill := []
    labels_fill := []
    true_labels_fill := []
    train_labels_fill := [] }

/-- Method `NCF_Dataset.__len__` (lines 161-162):
`len(self.features) * (self.num_ng + 1)`. -/
def NCFDataset.len (d : NCFDataset) : Nat := d.features.length * (d.num_ng + 1)

/-- The rejection loop of `ng_sample` (lines 108-110):
`j = np.random.randint(self.item_num); while (u,j) in self.train_mat:
j = np.random.randint(self.item_num)`.  `rng k % item_num` is the
`k`-th uniform draw; `fuel` bounds the unbounded loop (`none` = the
loop has not terminated within `fuel` draws).  Returns the accepted
item and the next draw counter. -/
def drawNeg (mat : List (Nat × Nat)) (item_num : Nat) (u : Nat)
    (rng : Nat → Nat) : Nat → Nat → Option (Nat × Nat)
  | 0, _ => none
  | fuel + 1, k =>
    let j := rng k % item_num
    if (u, j) ∈ mat then drawNeg mat item_num u rng fuel (k + 1)
    else some (j, k + 1)

/-- One pass of the inner loop `for u, _ in self.features` (lines
107-111), producing one negative `(u, j)` per positive pair, in
feature order. -/
def sampleOnePass (mat : List (Nat × Nat)) (item_num : Nat) (rng : Nat → Nat)
    (fuel : Nat) : List (Nat × Nat) → Nat → Option (List (Nat × Nat) × Nat)
  | [], k => some ([], k)
  | (u, _) :: rest, k =>
    match drawNeg mat item_num u rng fuel k with
    | none => none
    | some (j, k') =>
      match sampleOnePass mat item_num rng fuel rest k' with
      | none => none
      | some (l, k'') => some ((u, j) :: l, k'')

/-- The outer loop `for _ in range(self.num_ng)` (line 106):
concatenates the passes in order. -/
def sampleReps (mat : List (Nat × Nat)) (item_num : Nat) (rng : Nat → Nat)
    (fuel : Nat) (feats : List (Nat × Nat)) : Nat → Nat → Option (List (Nat × Nat) × Nat)
  | 0, k => some ([], k)
  | n + 1, k =>
    match sampleOnePass mat item_num rng fuel feats k with
    | none => none
    | some (l, k') =>
      match sampleReps mat item_num rng fuel feats n k' with
      | none => none
      | some (l2, k'') => some (l ++ l2, k'')

/-- Method `NCF_Dataset.ng_sample` (lines 97-120).
`assert self.is_training != 2` is the `none` branch.  With
`num_ng == 0` the fill arrays alias the originals; otherwise the
sampled negatives are appended and the three label arrays are extended
with zeros (`np.concatenate` with `np.zeros`).  The trailing shape
asserts of the source always hold by construction and are not
modelled as failure branches. -/
def NCFDataset.ng_sample (d : NCFDataset) (rng : Nat → Nat) (fuel : Nat) :
    Option NCFDataset :=
  if d.is_training == 2 then none
  else if d.num_ng == 0 then
    some { d with features_fill := d.features
                  labels_fill := d.labels
                  true_labels_fill := d.true_labels
                  train_labels_fill := d.train_labels }
  else
    match sampleReps d.train_mat d.item_num rng fuel d.features d.num_ng 0 with
    | none => none
    | some (negs, _) =>
      some { d with
              features_fill := d.features ++ negs
              labels_fill := d.labels ++ List.replicate negs.length 0
              true_labels_fill := d.true_labels ++ List.replicate negs.length 0
              train_labels_fill := d.train_labels ++ List.replicate negs.length 0 }

/-- The vectorised numpy assignment
`self.train_labels[valid_indices] = 1 - self.train_labels[valid_indices]`
(line 129): the right-hand side is computed from the original array,
so every position listed in `valid` (duplicates included) ends up at
`1 -` its original value.  `k` is the index of the head of `l`. -/
def flipVec (valid : List Nat) : List Int → Nat → List Int
  | [], _ => []
  | v :: rest, k => (if k ∈ valid then 1 - v else v) :: flipVec valid rest (k + 1)

/-- Method `NCF_Dataset.flip_labels` (lines 122-132):
`assert self.is_training != 2` (the `none` branch), keep only indices
`< len(self.train_labels)` (`valid_indices`), and toggle those
positions of `self.train_labels`.  The flip-count prints and the
trailing `self.get_state()` call are output-only. -/
def NCFDataset.flip_labels (d : NCFDataset) (indices : List Nat) :
    Option NCFDataset :=
  if d.is_training == 2 then none
  else
    let valid := indices.filter (fun i => i < d.train_labels.length)
    some { d with train_labels := flipVec valid d.train_labels 0 }

/-- The six counts printed by `NCF_Dataset.get_state` (lines 134-148). -/
structure StateSummary where
  pos_train : Nat
  neg_train : Nat
  true_pos : Nat
  true_neg : Nat
  false_pos : Nat
  false_neg : Nat
deriving DecidableEq

/-- The counts computed by `get_state` over `self.train_labels` and
`self.true_labels` (the original, un-augmented arrays; numpy masks
require the two arrays to have equal length). -/
def NCFDataset.stateSummary (d : NCFDataset) : StateSummary :=
  let pairs := d.train_labels.zip d.true_labels
  { pos_train := (d.train_labels.filter (fun v => v == 1)).length
    neg_train := (d.train_labels.filter (fun v => v == 0)).length
    true_pos := (pairs.filter (fun p => p.1 == 1 && p.2 == 1)).length
    true_neg := (pairs.filter (fun p => p.1 == 0 && p.2 == 0)).length
    false_pos := (pairs.filter (fun p => p.1 == 1 && p.2 == 0)).length
    false_neg := (pairs.filter (fun p => p.1 == 0 && p.2 == 1)).length }

/-- Method `NCF_Dataset.get_state` (lines 134-148).  `Option` is the raising
convention used for the asserted methods of this development; the
source body of `get_state` contains no assertion or mode check, so no
branch of this definition returns `none`. -/
def NCFDataset.get_state (d : NCFDataset) : Option StateSummary :=
  some d.stateSummary

/-! ### Grouped sample views

`__getitem__` of `NCF_Dataset` (lines 164-176), `NCF_UserWise_Dataset`
(182-196), `NCF_ItemWise_Dataset` (202-216) and
`NCF_NeighborWise_Dataset` (284-299).  In training mode
(`is_training != 2`, the only mode in which `ng_sample` has run and
the fill arrays exist — the evaluation branch reads the never-assigned
attribute `self.features_ps`) the views read the fill arrays.  We
model the `idx` component (`np.where(mask)[0]`) of each view: the row
positions whose grouping key equals the queried group id. -/

/-- Pointwise view: `NCF_Dataset.__getitem__(idx)` returns the single
row `idx` (its `idx` component is the queried index itself). -/
def pointGroupIdx (_ : NCFDataset) (r : Nat) : List Nat := [r]

/-- User-wise view: rows of `features_fill` whose user equals
`user_id` (`user_mask = features[:, 0] == user_id`). -/
def userGroupIdx (d : NCFDataset) (u : Nat) : List Nat :=
  (List.range d.features_fill.length).filter
    (fun r => (d.features_fill.getD r (0, 0)).1 == u)

/-- Item-wise view: rows of `features_fill` whose item equals
`item_id` (`item_mask = features[:, 1] == item_id`). -/
def itemGroupIdx (d : NCFDataset) (i : Nat) : List Nat :=
  (List.range d.features_fill.length).filter
    (fun r => (d.features_fill.getD r (0, 0)).2 == i)

/-- Tag `neighbor_type` of `NCF_NeighborWise_Dataset` (`'user'` / `'item'`). -/
inductive NeighborType where
  | user
  | item
deriving DecidableEq

/-- Class `NCF_NeighborWise_Dataset` (lines 218-299): the base dataset plus
`group_size`, `neighbor_type`, `cluster_num`, `clusters_per_sample`
and `cluster_ids_fill` (the per-row cluster ids of the augmented set,
set by its `ng_sample` override). -/
structure NeighborDataset extends NCFDataset where
  group_size : Nat
  neighbor_type : NeighborType
  cluster_num : Nat
  clusters_per_sample : List Int
  cluster_ids_fill : List Int
deriving DecidableEq

/-- The entity axis being clustered: `unique_samples = self.user_num
if neighbor_type == 'user' else self.item_num` (line 247). -/
def NeighborDataset.entityCount (nd : NeighborDataset) : Nat :=
  match nd.neighbor_type with
  | NeighborType.user => nd.user_num
  | NeighborType.item => nd.item_num

/-- The grouping entity of a row: its user (`features_fill[:, 0]`) for
`neighbor_type == 'user'`, its item (`features_fill[:, 1]`) otherwise. -/
def NeighborDataset.rowEntity (nd : NeighborDataset) (p : Nat × Nat) : Nat :=
  match nd.neighbor_type with
  | NeighborType.user => p.1
  | NeighborType.item => p.2

/-- Method `NCF_NeighborWise_Dataset.ng_sample` (lines 229-234): run the base
sampler, then `cluster_ids_fill = clusters_per_sample[features_fill[:, 0]]`
(or `[:, 1]` for item neighbors).  Out-of-range fancy indexing raises
in numpy; the `-1` default is never reached under the theorems'
bounds hypotheses. -/
def NeighborDataset.ng_sample (nd : NeighborDataset) (rng : Nat → Nat)
    (fuel : Nat) : Option NeighborDataset :=
  match nd.toNCFDataset.ng_sample rng fuel with
  | none => none
  | some d' =>
    some { nd with
            toNCFDataset := d'
            cluster_ids_fill :=
              d'.features_fill.map
                (fun p => nd.clusters_per_sample.getD (nd.rowEntity p) (-1)) }

/-- Cluster-wise view: `NCF_NeighborWise_Dataset.__getitem__` masks
rows by `cluster_ids_fill == cluster_id`. -/
def clusterGroupIdx (nd : NeighborDataset) (c : Nat) : List Nat :=
  (List.range nd.features_fill.length).filter
    (fun r => nd.cluster_ids_fill.getD r 0 == (c : Int))

/-- Length equations tying the label arrays to `features`; they hold
for every dataset built by `NCFDataset.init` whose `true_labels` input
matches `features` (numpy enforces them shape-wise). -/
def WellFormed (d : NCFDataset) : Prop :=
  d.labels.length = d.features.length ∧
  d.true_labels.length = d.features.length ∧
  d.train_labels.length = d.features.length

/-! ### Concrete data used by witnesses and concrete-scenario claims -/

/-- The similarity ranking of the spec's worked example (spec §8 item 7):
five entities; entity 0's most similar other entity is 1, entity 2's
most similar other entity is 3. -/
def rank5 : Nat → List Nat
  | 0 => [0, 1, 2, 3, 4]
  | 1 => [1, 0, 2, 3, 4]
  | 2 => [2, 3, 4, 0, 1]
  | 3 => [3, 2, 4, 0, 1]
  | _ => [4, 3, 2, 1, 0]

/-- A one-positive dataset used as the C7 counterexample input:
`features = [(0, 0)]`, `train_mat = {(0, 0)}`, two items, training
mode, one negative per positive. -/
def c7_d0 : NCFDataset := NCFDataset.init 1 2 [(0, 0)] [(0, 0)] [1] 0 1

/-- The state of `c7_d0` after `ng_sample` with a stream that always
draws item 1: one negative `(0, 1)` appended, fill arrays of length 2. -/
def c7_d1 : NCFDataset :=
  { c7_d0 with
      features_fill := [(0, 0), (0, 1)]
      labels_fill := [1, 0]
      true_labels_fill := [1, 0]
      train_labels_fill := [1, 0] }

/-- The evaluation-mode (`is_training = 2`) dataset used for C8. -/
def c8_d : NCFDataset := NCFDataset.init 1 2 [(0, 0)] [(0, 0)] [1] 2 1

/-- The C5/C6 witness dataset: two positives, two users, two items,
one negative per positive, training mode. -/
def c5_d0 : NCFDataset :=
  NCFDataset.init 2 2 [(0, 0), (1, 1)] [(0, 0), (1, 1)] [1, 1] 0 1

/-- State of `c5_d0` after `ng_sample` with the draw stream `k ↦ k`: for user 0
the draw `j = 0` is rejected (`(0,0)` is interacted) and `j = 1`
accepted; for user 1 the draw `j = 0` is accepted. -/
def c5_d1 : NCFDataset :=
  { c5_d0 with
      features_fill := [(0, 0), (1, 1), (0, 1), (1, 0)]
      labels_fill := [1, 1, 0, 0]
      true_labels_fill := [1, 1, 0, 0]
      train_labels_fill := [1, 1, 0, 0] }

/-- Variant of `c5_d0` with `num_ng = 0`: `ng_sample` must return the original
arrays unchanged. -/
def c6_d0 : NCFDataset :=
  NCFDataset.init 2 2 [(0, 0), (1, 1)] [(0, 0), (1, 1)] [1, 1] 0 0

def c6_d1 : NCFDataset :=
  { c6_d0 with
      features_fill := [(0, 0), (1, 1)]
      labels_fill := [1, 1]
      true_labels_fill := [1, 1]
      train_labels_fill := [1, 1] }

/-- A two-entity similarity ranking satisfying the provider contract. -/
def rank2 : Nat → List Nat
  | 0 => [0, 1]
  | _ => [1, 0]

/-- Concrete neighbor-wise dataset for the C4 witness: two users, two
items, two positives, `group_size = 1`, user neighbors; its clustering
fields are exactly what the constructor computes
(`assign_cluster_ids 2 1 rank2 = [0, 1]`, `cluster_num = 2`). -/
def c4_nd0 : NeighborDataset :=
  { toNCFDataset := NCFDataset.init 2 2 [(0, 0), (1, 1)] [(0, 0), (1, 1)] [1, 1] 0 1
    group_size := 1
    neighbor_type := NeighborType.user
    cluster_num := 2
    clusters_per_sample := [0, 1]
    cluster_ids_fill := [] }

/-- State of `c4_nd0` after `ng_sample` with the draw stream `k ↦ k`. -/
def c4_nd1 : NeighborDataset :=
  { c4_nd0 with
      toNCFDataset :=
        { c4_nd0.toNCFDataset with
            features_fill := [(0, 0), (1, 1), (0, 1), (1, 0)]
            labels_fill := [1, 1, 0, 0]
            true_labels_fill := [1, 1, 0, 0]
            train_labels_fill := [1, 1, 0, 0] }
      cluster_ids_fill := [0, 1, 0, 1] }

theorem getD_set_self {α : Type} (l : List α) (n : Nat) (v d : α)
    (h : n < l.length) : (l.set n v).getD n d = v := by
  induction l generalizing n with
  | nil => simp at h
  | cons a t ih =>
    cases n with
    | zero => simp [List.set, List.getD]
    | succ m =>
      simp only [List.set, List.getD_cons_succ]
      exact ih m (by simpa using h)

theorem getD_set_ne {α : Type} (l : List α) (m n : Nat) (v d : α)
    (h : m ≠ n) : (l.set m v).getD n d = l.getD n d := by
  induction l generalizing m n with
  | nil => rfl
  | cons a t ih =>
    cases m with
    | zero =>
      cases n with
      | zero => exact absurd rfl h
      | succ k => simp [List.set, List.getD]
    | succ m' =>
      cases n with
      | zero => simp [List.set, List.getD]
      | succ k =>
        simp only [List.set, List.getD_cons_succ]
        exact ih m' k (by omega)

theorem getD_mem {α : Type} (l : List α) (n : Nat) (d : α)
    (h : n < l.length) : l.getD n d ∈ l := by
  induction l generalizing n with
  | nil => simp at h
  | cons a t ih =>
    cases n with
    | zero => simp [List.getD]
    | succ m =>
      simp only [List.getD_cons_succ]
      exact List.mem_cons_of_mem a (ih m (by simpa using h))

theorem getD_append_left {α : Type} (l l' : List α) (n : Nat) (d : α)
    (h : n < l.length) : (l ++ l').getD n d = l.getD n d := by
  induction l generalizing n with
  | nil => simp at h
  | cons a t ih =>
    cases n with
    | zero => rfl
    | succ m =>
      simp only [List.cons_append, List.getD_cons_succ]
      exact ih m (by simpa using h)

theorem getD_append_right {α : Type} (l l' : List α) (n : Nat) (d : α)
    (h : l.length ≤ n) : (l ++ l').getD n d = l'.getD (n - l.length) d := by
  induction l generalizing n with
  | nil => simp
  | cons a t ih =>
    cases n with
    | zero => simp at h
    | succ m =>
      simp only [List.cons_append, List.getD_cons_succ, List.length_cons]
      have := ih m (by simpa using h)
      simpa [Nat.succ_sub_succ] using this

theorem getD_replicate {α : Type} (k n : Nat) (v d : α) (h : n < k) :
    (List.replicate k v).getD n d = v := by
  induction k generalizing n with
  | zero => omega
  | succ m ih =>
    cases n with
    | zero => rfl
    | succ j =>
      simp only [List.replicate, List.getD_cons_succ]
      exact ih j (by omega)

theorem getD_map {α β : Type} (f : α → β) (l : List α) (n : Nat) (d : β) (d' : α)
    (h : n < l.length) : (l.map f).getD n d = f (l.getD n d') := by
  induction l generalizing n with
  | nil => simp at h
  | cons a t ih =>
    cases n with
    | zero => rfl
    | succ m =>
      simp only [List.map, List.getD_cons_succ]
      exact ih m (by simpa using h)

theorem getD_default_of_le {α : Type} (l : List α) (n : Nat) (d : α)
    (h : l.length ≤ n) : l.getD n d = d := by
  induction l generalizing n with
  | nil => rfl
  | cons a t ih =>
    cases n with
    | zero => simp at h
    | succ m =>
      simp only [List.getD_cons_succ]
      exact ih m (by simpa using h)

theorem filter_cons_length_pos {α : Type} (p : α → Bool) (a : α) (l : List α)
    (h : p a = true) : ((a :: l).filter p).length = (l.filter p).length + 1 := by
  simp [List.filter_cons, h]

theorem filter_cons_length_neg {α : Type} (p : α → Bool) (a : α) (l : List α)
    (h : p a = false) : ((a :: l).filter p).length = (l.filter p).length := by
  simp [List.filter_cons, h]

theorem countNeg_cons (a : Int) (t : List Int) :
    countNeg (a :: t) = (if a = -1 then 1 else 0) + countNeg t := by
  by_cases h : a = -1 <;> simp [countNeg, List.filter_cons, h, Nat.add_comm]

theorem countNeg_set (l : List Int) (c : Nat) (v : Int)
    (hl : l.getD c 0 = -1) (hv : v ≠ -1) :
    countNeg (l.set c v) + 1 = countNeg l := by
  induction l generalizing c with
  | nil => simp [List.getD] at hl
  | cons a t ih =>
    cases c with
    | zero =>
      simp only [List.getD_cons_zero] at hl
      subst hl
      simp [List.set, countNeg_cons, hv]
      omega
    | succ m =>
      simp only [List.getD_cons_succ] at hl
      have := ih m hl
      simp only [List.set, countNeg_cons]
      omega

theorem countNeg_replicate (n : Nat) : countNeg (List.replicate n (-1)) = n := by
  induction n with
  | zero => rfl
  | succ m ih => simp [List.replicate, countNeg_cons, ih]; omega

/-- Every in-range entry non-sentinel gives `countNeg l = 0`. -/
theorem countNeg_eq_zero (l : List Int)
    (h : ∀ i, i < l.length → l.getD i 0 ≠ -1) : countNeg l = 0 := by
  induction l with
  | nil => rfl
  | cons a t ih =>
    have ha : a ≠ -1 := by
      have := h 0 (by simp)
      simpa [List.getD] using this
    have ht : countNeg t = 0 := by
      refine ih (fun i hi => ?_)
      have := h (i + 1) (by simpa using Nat.succ_lt_succ hi)
      simpa [List.getD_cons_succ] using this
    simp [countNeg_cons, ha, ht]

/-- If `countNeg l = 0` then no in-range entry is the sentinel. -/
theorem getD_ne_neg_of_countNeg_zero (l : List Int) (h : countNeg l = 0)
    (i : Nat) (hi : i < l.length) : l.getD i 0 ≠ -1 := by
  intro hcon
  have hmem : (-1 : Int) ∈ l := by
    have := getD_mem l i 0 hi
    rwa [hcon] at this
  have : (-1 : Int) ∈ l.filter (fun v => v == -1) := by
    simp [List.mem_filter, hmem]
  have : l.filter (fun v => v == -1) ≠ [] := by
    intro hnil; rw [hnil] at this; simp at this
  have : countNeg l ≠ 0 := by
    simpa [countNeg, List.length_eq_zero] using this
  exact this h

/-! ### Lemmas about the cluster walk -/

theorem walk_length (cid : Int) (gs : Nat) (cands : List Nat) :
    ∀ (clusters : List Int) (sz : Nat),
      (walk cid gs cands clusters sz).length = clusters.length := by
  induction cands with
  | nil => intro clusters sz; rfl
  | cons c rest ih =>
    intro clusters sz
    simp only [walk]
    by_cases h : clusters.getD c 0 == -1
    · simp only [h, if_pos]
      by_cases hsz : sz + 1 ≥ gs
      · simp [hsz]
      · simp only [if_neg hsz]
        rw [ih]
        exact List.length_set ..
    · simp only [h]
      simpa using ih clusters sz

/-- The walk only turns `-1` entries into `cid`; every other entry is
untouched. -/
theorem walk_getD (cid : Int) (gs : Nat) (cands : List Nat) :
    ∀ (clusters : List Int) (sz : Nat) (i : Nat),
      (walk cid gs cands clusters sz).getD i 0 = clusters.getD i 0 ∨
      (clusters.getD i 0 = -1 ∧ (walk cid gs cands clusters sz).getD i 0 = cid) := by
  induction cands with
  | nil => intro clusters sz i; left; rfl
  | cons c rest ih =>
    intro clusters sz i
    simp only [walk]
    by_cases h : clusters.getD c 0 = -1
    · have hc : c < clusters.length := by
        by_contra hge
        have : clusters.getD c 0 = 0 := getD_default_of_le clusters c 0 (by omega)
        omega
      simp only [h, beq_self_eq_true, if_pos]
      have hset : ∀ j, (clusters.set c cid).getD j 0 = clusters.getD j 0 ∨
          (clusters.getD j 0 = -1 ∧ (clusters.set c cid).getD j 0 = cid) := by
        intro j
        by_cases hj : c = j
        · subst hj
          right
          exact ⟨h, getD_set_self clusters c cid 0 hc⟩
        · left; exact getD_set_ne clusters c j cid 0 hj
      by_cases hsz : sz + 1 ≥ gs
      · simp only [if_pos hsz]
        exact hset i
      · simp only [if_neg hsz]
        rcases ih (clusters.set c cid) (sz + 1) i with h1 | ⟨h1, h2⟩
        · rw [h1]
          exact hset i
        · rcases hset i with h3 | ⟨h3, h4⟩
          · rw [h3] at h1
            right; exact ⟨h1, h2⟩
          · right; exact ⟨h3, h2⟩
    · have : (clusters.getD c 0 == -1) = false := by simpa using h
      simp only [this, if_neg, Bool.false_eq_true]
      exact ih clusters sz i

/-- Exact fill count of the walk: with pairwise-distinct candidates of
which at least `gs - sz` are unassigned, the walk assigns exactly
`gs - sz` entries. -/
theorem walk_count (cid : Int) (hcid : cid ≠ -1) (gs : Nat) (cands : List Nat) :
    ∀ (clusters : List Int) (sz : Nat),
      cands.Nodup → sz < gs →
      gs ≤ sz + (cands.filter (fun c => clusters.getD c 0 == -1)).length →
      countNeg (walk cid gs cands clusters sz) + (gs - sz) = countNeg clusters := by
  induction cands with
  | nil =>
    intro clusters sz _ hsz havail
    simp at havail
    omega
  | cons c rest ih =>
    intro clusters sz hnodup hsz havail
    have hnd := List.nodup_cons.mp hnodup
    simp only [walk]
    by_cases h : clusters.getD c 0 = -1
    · simp only [h, beq_self_eq_true, if_pos]
      have hdec : countNeg (clusters.set c cid) + 1 = countNeg clusters :=
        countNeg_set clusters c cid h hcid
      have hfilter_rest :
          rest.filter (fun x => (clusters.set c cid).getD x 0 == -1) =
          rest.filter (fun x => clusters.getD x 0 == -1) := by
        apply List.filter_congr
        intro x hx
        have hne : c ≠ x := fun hEq => hnd.1 (hEq ▸ hx)
        rw [getD_set_ne clusters c x cid 0 hne]
      by_cases hsz2 : sz + 1 ≥ gs
      · simp only [if_pos hsz2]
        have : gs - sz = 1 := by omega
        omega
      · simp only [if_neg hsz2]
        have havail' : gs ≤ (sz + 1) +
            (rest.filter (fun x => (clusters.set c cid).getD x 0 == -1)).length := by
          rw [hfilter_rest]
          have : (List.filter (fun x => clusters.getD x 0 == -1) (c :: rest)).length
              = (rest.filter (fun x => clusters.getD x 0 == -1)).length + 1 :=
            filter_cons_length_pos _ c rest (by simpa using h)
          omega
        have := ih (clusters.set c cid) (sz + 1) hnd.2 (by omega) havail'
        omega
    · have hb : (clusters.getD c 0 == -1) = false := by simpa using h
      simp only [hb, Bool.false_eq_true, if_neg]
      have havail' : gs ≤ sz + (rest.filter (fun x => clusters.getD x 0 == -1)).length := by
        have : (List.filter (fun x => clusters.getD x 0 == -1) (c :: rest)).length
            = (rest.filter (fun x => clusters.getD x 0 == -1)).length :=
          filter_cons_length_neg _ c rest hb
        omega
      exact ih clusters sz hnd.2 hsz havail'

/-! ### The main-loop invariant of `assign_cluster_ids` -/

theorem filter_map_succ_length (r : List Nat) (f : Nat → Bool) :
    ((r.map Nat.succ).filter f).length = (r.filter (fun c => f (c + 1))).length := by
  induction r with
  | nil => rfl
  | cons a t ih =>
    by_cases h : f (a + 1) = true
    · rw [List.map_cons,
        filter_cons_length_pos f a.succ _ h,
        filter_cons_length_pos (fun c => f (c + 1)) a t h, ih]
    · rw [List.map_cons,
        filter_cons_length_neg f a.succ _ (by simpa using h),
        filter_cons_length_neg (fun c => f (c + 1)) a t (by simpa using h), ih]

/-- Counting unassigned positions through the index range: the number
of indices `c < l.length` with `l[c] = -1` is `countNeg l`. -/
theorem filter_range_getD (l : List Int) :
    ((List.range l.length).filter (fun c => l.getD c 0 == -1)).length = countNeg l := by
  induction l with
  | nil => rfl
  | cons a t ih =>
    have hrange : List.range (a :: t).length = 0 :: (List.range t.length).map Nat.succ := by
      simpa using List.range_succ_eq_map t.length
    rw [hrange]
    have hshift : (((List.range t.length).map Nat.succ).filter
        (fun c => (a :: t).getD c 0 == -1)).length =
        ((List.range t.length).filter (fun c => t.getD c 0 == -1)).length := by
      rw [filter_map_succ_length]
      simp only [List.getD_cons_succ]
    by_cases h : a = -1
    · rw [filter_cons_length_pos _ 0 _ (by simpa using h), hshift, ih, countNeg_cons, h]
      simp [Nat.add_comm]
    · rw [filter_cons_length_neg _ 0 _ (by simpa using h), hshift, ih, countNeg_cons,
        if_neg h]
      simp

theorem assignLoop_length (N g : Nat) (rank : Nat → List Nat) (samples : List Nat) :
    ∀ (clusters : List Int) (cid : Nat),
      (assignLoop N g rank samples clusters cid).1.length = clusters.length := by
  induction samples with
  | nil => intro clusters cid; rfl
  | cons s rest ih =>
    intro clusters cid
    simp only [assignLoop]
    by_cases hbr : (cid == N / g) = true
    · simp [hbr]
    · simp only [hbr, Bool.false_eq_true, if_false]
      by_cases hs : (clusters.getD s 0 != -1) = true
      · simp only [hs, if_true]
        exact ih clusters cid
      · simp only [hs, Bool.false_eq_true, if_false]
        by_cases hgg : 1 < g
        · simp only [if_pos hgg]
          rw [ih, walk_length, List.length_set]
        · simp only [if_neg hgg]
          rw [ih, List.length_set]

/-- The single-pass invariant of the greedy loop: starting from a
state in which `cid * g` entries are assigned, every assigned value is
in `[0, cid)`, every index not in the remaining `samples` is already
assigned, and `cid ≤ N / g`, the loop exits with the same shape of
invariant, and moreover either every entry is assigned or the exit
`cluster_id` is exactly `N / g`. -/
theorem assignLoop_invariant (N g : Nat) (hg : 1 ≤ g) (rank : Nat → List Nat)
    (hrank : ValidRanking N rank) (samples : List Nat) :
    ∀ (clusters : List Int) (cid : Nat) (cl' : List Int) (cid' : Nat),
      assignLoop N g rank samples clusters cid = (cl', cid') →
      clusters.length = N →
      (∀ s ∈ samples, s < N) →
      (∀ i, i < N → i ∉ samples → clusters.getD i 0 ≠ -1) →
      (∀ i, i < N → clusters.getD i 0 = -1 ∨
        (0 ≤ clusters.getD i 0 ∧ clusters.getD i 0 < (cid : Int))) →
      countNeg clusters + cid * g = N →
      cid ≤ N / g →
      cl'.length = N ∧
      (∀ i, i < N → cl'.getD i 0 = -1 ∨
        (0 ≤ cl'.getD i 0 ∧ cl'.getD i 0 < (cid' : Int))) ∧
      cid' ≤ N / g ∧
      countNeg cl' + cid' * g = N ∧
      (countNeg cl' = 0 ∨ cid' = N / g) := by
  induction samples with
  | nil =>
    intro clusters cid cl' cid' heq hlen hsamp hproc hval hcount hcid
    simp only [assignLoop] at heq
    obtain ⟨rfl, rfl⟩ := Prod.mk.injEq .. ▸ heq
    refine ⟨hlen, hval, hcid, hcount, Or.inl ?_⟩
    exact countNeg_eq_zero clusters (fun i hi => hproc i (hlen ▸ hi) (by simp))
  | cons s rest ih =>
    intro clusters cid cl' cid' heq hlen hsamp hproc hval hcount hcid
    simp only [assignLoop] at heq
    by_cases hbr : (cid == N / g) = true
    · rw [if_pos hbr] at heq
      obtain ⟨rfl, rfl⟩ := Prod.mk.injEq .. ▸ heq
      exact ⟨hlen, hval, hcid, hcount, Or.inr (by simpa using hbr)⟩
    · rw [if_neg (by simpa using hbr)] at heq
      have hcidlt : cid < N / g := by
        have : cid ≠ N / g := by simpa using hbr
        omega
      by_cases hs : clusters.getD s 0 = -1
      · rw [if_neg (by rw [hs]; simp)] at heq
        -- process sample `s`: seed a new cluster and walk the ranking
        have hcidne : ((cid : Nat) : Int) ≠ -1 := by omega
        have hsN : s < N := hsamp s (by simp)
        obtain ⟨hhead, hperm⟩ := hrank s hsN
        obtain ⟨tail, hrs⟩ : ∃ tail, rank s = s :: tail := by
          cases hr : rank s with
          | nil => rw [hr] at hhead; simp at hhead
          | cons a t =>
            rw [hr] at hhead
            simp only [List.head?_cons, Option.some.injEq] at hhead
            exact ⟨t, by rw [hhead]⟩
        have hperm' : List.Perm (s :: tail) (List.range N) := hrs ▸ hperm
        have hnodup : (s :: tail).Nodup :=
          (List.Perm.nodup_iff hperm').mpr (List.nodup_range N)
        have htail_nodup : tail.Nodup := (List.nodup_cons.mp hnodup).2
        have hs_tail : s ∉ tail := (List.nodup_cons.mp hnodup).1
        set clusters1 := clusters.set s ((cid : Nat) : Int) with hclusters1
        have hlen1 : clusters1.length = N := by
          rw [hclusters1, List.length_set]; exact hlen
        have hget1s : clusters1.getD s 0 = ((cid : Nat) : Int) :=
          getD_set_self clusters s _ 0 (hlen ▸ hsN)
        have hcount1 : countNeg clusters1 + 1 = countNeg clusters :=
          countNeg_set clusters s _ hs hcidne
        have hmul : (cid + 1) * g ≤ N := by
          calc (cid + 1) * g ≤ (N / g) * g := Nat.mul_le_mul_right g (by omega)
            _ ≤ N := Nat.div_mul_le_self N g
        have hsm : (cid + 1) * g = cid * g + g := Nat.succ_mul cid g
        -- per-position description of `clusters1`
        have hget1 : ∀ i, clusters1.getD i 0 = clusters.getD i 0 ∨
            (i = s ∧ clusters1.getD i 0 = ((cid : Nat) : Int)) := by
          intro i
          by_cases hi : s = i
          · subst hi; right; exact ⟨rfl, hget1s⟩
          · left; exact getD_set_ne clusters s i _ 0 hi
        by_cases hgg : 1 < g
        · rw [if_pos hgg, hrs] at heq
          simp only [List.drop_succ_cons, List.drop_zero] at heq
          set clusters2 := walk ((cid : Nat) : Int) g tail clusters1 1 with hclusters2
          -- the tail holds every entity except `s`, so it holds every
          -- unassigned entity:
          have hkey : (tail.filter (fun c => clusters1.getD c 0 == -1)).length =
              countNeg clusters1 := by
            have hfP : ((s :: tail).filter (fun c => clusters1.getD c 0 == -1)).length =
                (tail.filter (fun c => clusters1.getD c 0 == -1)).length :=
              filter_cons_length_neg _ s tail (by rw [hget1s]; simp [hcidne])
            have hfperm := List.Perm.filter
              (fun c => clusters1.getD c 0 == -1) hperm'
            have : ((s :: tail).filter (fun c => clusters1.getD c 0 == -1)).length =
                ((List.range N).filter (fun c => clusters1.getD c 0 == -1)).length :=
              hfperm.length_eq
            rw [hfP] at this
            rw [this, ← hlen1, filter_range_getD]
          have havail : g ≤ 1 + (tail.filter (fun c => clusters1.getD c 0 == -1)).length := by
            rw [hkey]; omega
          have hwc : countNeg clusters2 + (g - 1) = countNeg clusters1 :=
            walk_count ((cid : Nat) : Int) hcidne g tail clusters1 1
              htail_nodup hgg (by omega)
          have hlen2 : clusters2.length = N := by
            rw [hclusters2, walk_length]; exact hlen1
          have hcount2 : countNeg clusters2 + (cid + 1) * g = N := by omega
          have hget2 : ∀ i, clusters2.getD i 0 = clusters1.getD i 0 ∨
              (clusters1.getD i 0 = -1 ∧ clusters2.getD i 0 = ((cid : Nat) : Int)) :=
            fun i => walk_getD ((cid : Nat) : Int) g tail clusters1 1 i
          have hval2 : ∀ i, i < N → clusters2.getD i 0 = -1 ∨
              (0 ≤ clusters2.getD i 0 ∧ clusters2.getD i 0 < ((cid + 1 : Nat) : Int)) := by
            intro i hi
            rcases hget2 i with h2 | ⟨_, h2⟩
            · rw [h2]
              rcases hget1 i with h1 | ⟨_, h1⟩
              · rw [h1]
                rcases hval i hi with h0 | ⟨h0a, h0b⟩
                · left; exact h0
                · right; exact ⟨h0a, by omega⟩
              · rw [h1]; right; constructor <;> omega
            · rw [h2]; right; constructor <;> omega
          have hproc2 : ∀ i, i < N → i ∉ rest → clusters2.getD i 0 ≠ -1 := by
            intro i hi hir
            by_cases his : i = s
            · subst his
              rcases hget2 i with h2 | ⟨h2, _⟩
              · rw [h2, hget1s]; omega
              · rw [hget1s] at h2; exact absurd h2 hcidne
            · have hin : i ∉ s :: rest := by
                intro hmem
                rcases List.mem_cons.mp hmem with h | h
                · exact his h
                · exact hir h
              have hold : clusters.getD i 0 ≠ -1 := hproc i hi hin
              have h1 : clusters1.getD i 0 = clusters.getD i 0 :=
                getD_set_ne clusters s i _ 0 (fun hEq => his hEq.symm)
              rcases hget2 i with h2 | ⟨h2, _⟩
              · rw [h2, h1]; exact hold
              · rw [h1] at h2; exact absurd h2 hold
          exact ih clusters2 (cid + 1) cl' cid' heq hlen2
            (fun x hx => hsamp x (List.mem_cons_of_mem s hx))
            hproc2 hval2 hcount2 (by omega)
        · rw [if_neg hgg] at heq
          have hone : g = 1 := by omega
          have hcount2 : countNeg clusters1 + (cid + 1) * g = N := by
            rw [hone] at hcount ⊢; omega
          have hval2 : ∀ i, i < N → clusters1.getD i 0 = -1 ∨
              (0 ≤ clusters1.getD i 0 ∧ clusters1.getD i 0 < ((cid + 1 : Nat) : Int)) := by
            intro i hi
            rcases hget1 i with h1 | ⟨_, h1⟩
            · rw [h1]
              rcases hval i hi with h0 | ⟨h0a, h0b⟩
              · left; exact h0
              · right; exact ⟨h0a, by omega⟩
            · rw [h1]; right; constructor <;> omega
          have hproc2 : ∀ i, i < N → i ∉ rest → clusters1.getD i 0 ≠ -1 := by
            intro i hi hir
            by_cases his : i = s
            · subst his; rw [hget1s]; omega
            · have hin : i ∉ s :: rest := by
                intro hmem
                rcases List.mem_cons.mp hmem with h | h
                · exact his h
                · exact hir h
              rw [getD_set_ne clusters s i _ 0 (fun hEq => his hEq.symm)]
              exact hproc i hi hin
          exact ih clusters1 (cid + 1) cl' cid' heq hlen1
            (fun x hx => hsamp x (List.mem_cons_of_mem s hx))
            hproc2 hval2 hcount2 (by omega)
      · rw [if_pos (by simpa using hs)] at heq
        refine ih clusters cid cl' cid' heq hlen
          (fun x hx => hsamp x (List.mem_cons_of_mem s hx))
          (fun i hi hir => ?_) hval hcount hcid
        by_cases his : i = s
        · subst his; exact hs
        · refine hproc i hi (fun hmem => ?_)
          rcases List.mem_cons.mp hmem with h | h
          · exact his h
          · exact hir h

theorem assign_cluster_ids_length (N g : Nat) (rank : Nat → List Nat) :
    (assign_cluster_ids N g rank).length = N := by
  unfold assign_cluster_ids
  by_cases h : (assignLoop N g rank (List.range N) (List.replicate N (-1)) 0).2
      < cluster_num N g
  · simp only [if_pos h, List.length_map]
    rw [assignLoop_length, List.length_replicate]
  · simp only [if_neg h]
    rw [assignLoop_length, List.length_replicate]

/-- Core result behind the cluster-coverage claims: for `group_size ≥ 1`
and a ranking satisfying the Similarity Provider contract, every entity
receives a cluster id in `[0, cluster_num)` — the sentinel `-1` never
survives the repair pass. -/
theorem assign_cluster_ids_bounds (N g : Nat) (rank : Nat → List Nat)
    (hg : 1 ≤ g) (hrank : ValidRanking N rank) :
    ∀ i, i < N → 0 ≤ (assign_cluster_ids N g rank).getD i 0 ∧
      (assign_cluster_ids N g rank).getD i 0 < (cluster_num N g : Int) := by
  intro i hi
  obtain ⟨cl', cid', heq⟩ : ∃ cl' cid',
      assignLoop N g rank (List.range N) (List.replicate N (-1)) 0 = (cl', cid') :=
    ⟨_, _, rfl⟩
  have hinv := assignLoop_invariant N g hg rank hrank (List.range N)
    (List.replicate N (-1)) 0 cl' cid' heq
    (List.length_replicate N (-1))
    (fun s hs => List.mem_range.mp hs)
    (fun j hj hnot => absurd (List.mem_range.mpr hj) hnot)
    (fun j hj => Or.inl (getD_replicate N j (-1) 0 hj))
    (by rw [countNeg_replicate]; omega)
    (Nat.zero_le _)
  obtain ⟨hlen', hval', hcid', hcount', hdisj'⟩ := hinv
  have hKge : N / g ≤ cluster_num N g := by
    unfold cluster_num
    by_cases h : N % g ≠ 0 <;> simp [h]
  unfold assign_cluster_ids
  rw [heq]
  by_cases hrep : cid' < cluster_num N g
  · -- repair pass runs: every sentinel becomes `cid'`
    simp only [if_pos hrep]
    rw [getD_map (fun v => if v == -1 then (cid' : Int) else v) cl' i 0 0 (by omega)]
    rcases hval' i hi with hneg | ⟨h0, h1⟩
    · rw [hneg]
      simp only [beq_self_eq_true, if_true]
      refine ⟨by omega, by omega⟩
    · have : (cl'.getD i 0 == -1) = false := by
        simp only [beq_eq_false_iff_ne, ne_eq]
        omega
      rw [this]
      simp only [Bool.false_eq_true, if_false]
      exact ⟨h0, by omega⟩
  · -- repair skipped: the loop filled every cluster exactly, so no
    -- sentinel remains (`cid' = cluster_num = N / g` forces `g ∣ N`)
    simp only [if_neg hrep]
    have hcidK : cid' = cluster_num N g := by omega
    have hNg : cid' = N / g := by omega
    have hmod : N % g = 0 := by
      by_contra hne
      have : cluster_num N g = N / g + 1 := by
        unfold cluster_num; simp [hne]
      omega
    have hzero : countNeg cl' = 0 := by
      rcases hdisj' with h | h
      · exact h
      · have hdg : g ∣ N := Nat.dvd_of_mod_eq_zero hmod
        have hNN : N / g * g = N := Nat.div_mul_cancel hdg
        rw [hNg] at hcount'
        omega
    have hne := getD_ne_neg_of_countNeg_zero cl' hzero i (by omega)
    rcases hval' i hi with hneg | ⟨h0, h1⟩
    · exact absurd hneg hne
    · exact ⟨h0, by omega⟩

/-! ### Lemmas about the negative sampler -/

theorem drawNeg_spec (mat : List (Nat × Nat)) (item_num u : Nat) (rng : Nat → Nat) :
    ∀ (fuel k : Nat) (j k' : Nat),
      drawNeg mat item_num u rng fuel k = some (j, k') →
      (u, j) ∉ mat ∧ (0 < item_num → j < item_num) := by
  intro fuel
  induction fuel with
  | zero => intro k j k' h; simp [drawNeg] at h
  | succ f ih =>
    intro k j k' h
    simp only [drawNeg] at h
    by_cases hmem : (u, rng k % item_num) ∈ mat
    · rw [if_pos hmem] at h
      exact ih (k + 1) j k' h
    · rw [if_neg hmem] at h
      obtain ⟨rfl, rfl⟩ := Prod.mk.injEq .. ▸ Option.some.injEq .. ▸ h
      exact ⟨hmem, fun hpos => Nat.mod_lt _ hpos⟩

theorem sampleOnePass_spec (mat : List (Nat × Nat)) (item_num : Nat)
    (rng : Nat → Nat) (fuel : Nat) :
    ∀ (feats : List (Nat × Nat)) (k : Nat) (l : List (Nat × Nat)) (k' : Nat),
      sampleOnePass mat item_num rng fuel feats k = some (l, k') →
      l.length = feats.length ∧
      ∀ q ∈ l, (∃ p ∈ feats, q.1 = p.1) ∧ q ∉ mat ∧
        (0 < item_num → q.2 < item_num) := by
  intro feats
  induction feats with
  | nil =>
    intro k l k' h
    simp only [sampleOnePass, Option.some.injEq] at h
    obtain ⟨rfl, rfl⟩ := Prod.mk.injEq .. ▸ h
    exact ⟨rfl, by simp⟩
  | cons p rest ih =>
    intro k l k' h
    obtain ⟨u, v⟩ := p
    simp only [sampleOnePass] at h
    cases hdraw : drawNeg mat item_num u rng fuel k with
    | none => rw [hdraw] at h; simp at h
    | some jk =>
      obtain ⟨j, k1⟩ := jk
      rw [hdraw] at h
      dsimp only at h
      cases hrest : sampleOnePass mat item_num rng fuel rest k1 with
      | none => rw [hrest] at h; simp at h
      | some lk =>
        obtain ⟨l2, k2⟩ := lk
        rw [hrest] at h
        simp only [Option.some.injEq] at h
        obtain ⟨rfl, rfl⟩ := Prod.mk.injEq .. ▸ h
        obtain ⟨hlen2, hmem2⟩ := ih k1 l2 k2 hrest
        obtain ⟨hnotin, hlt⟩ := drawNeg_spec mat item_num u rng fuel k j k1 hdraw
        refine ⟨by simp [hlen2], ?_⟩
        intro q hq
        rcases List.mem_cons.mp hq with rfl | hq2
        · exact ⟨⟨(u, v), by simp⟩, hnotin, hlt⟩
        · obtain ⟨⟨p2, hp2, hfst⟩, hq3, hq4⟩ := hmem2 q hq2
          exact ⟨⟨p2, List.mem_cons_of_mem _ hp2, hfst⟩, hq3, hq4⟩

theorem sampleReps_spec (mat : List (Nat × Nat)) (item_num : Nat)
    (rng : Nat → Nat) (fuel : Nat) (feats : List (Nat × Nat)) :
    ∀ (n k : Nat) (l : List (Nat × Nat)) (k' : Nat),
      sampleReps mat item_num rng fuel feats n k = some (l, k') →
      l.length = n * feats.length ∧
      ∀ q ∈ l, (∃ p ∈ feats, q.1 = p.1) ∧ q ∉ mat ∧
        (0 < item_num → q.2 < item_num) := by
  intro n
  induction n with
  | zero =>
    intro k l k' h
    simp only [sampleReps, Option.some.injEq] at h
    obtain ⟨rfl, rfl⟩ := Prod.mk.injEq .. ▸ h
    exact ⟨by simp, by simp⟩
  | succ m ih =>
    intro k l k' h
    simp only [sampleReps] at h
    cases hp : sampleOnePass mat item_num rng fuel feats k with
    | none => rw [hp] at h; simp at h
    | some lk =>
      obtain ⟨l1, k1⟩ := lk
      rw [hp] at h
      dsimp only at h
      cases hr : sampleReps mat item_num rng fuel feats m k1 with
      | none => rw [hr] at h; simp at h
      | some lk2 =>
        obtain ⟨l2, k2⟩ := lk2
        rw [hr] at h
        simp only [Option.some.injEq] at h
        obtain ⟨rfl, rfl⟩ := Prod.mk.injEq .. ▸ h
        obtain ⟨hlen1, hmem1⟩ := sampleOnePass_spec mat item_num rng fuel feats k l1 k1 hp
        obtain ⟨hlen2, hmem2⟩ := ih k1 l2 k2 hr
        constructor
        · rw [List.length_append, hlen1, hlen2, Nat.succ_mul]; omega
        · intro q hq
          rcases List.mem_append.mp hq with h1 | h2
          · exact hmem1 q h1
          · exact hmem2 q h2

/-- Everything `ng_sample` guarantees on success, read off its branches:
the mode is not evaluation, and the fill arrays are the originals plus
an appended block of `num_ng * len(features)` sampled negatives, whose
labels are zero-filled; all other fields are untouched. -/
theorem ng_sample_some (d d' : NCFDataset) (rng : Nat → Nat) (fuel : Nat)
    (h : d.ng_sample rng fuel = some d') :
    d.is_training ≠ 2 ∧
    ∃ negs : List (Nat × Nat),
      negs.length = d.num_ng * d.features.length ∧
      (∀ q ∈ negs, (∃ p ∈ d.features, q.1 = p.1) ∧ q ∉ d.train_mat ∧
        (0 < d.item_num → q.2 < d.item_num)) ∧
      d'.features_fill = d.features ++ negs ∧
      d'.labels_fill = d.labels ++ List.replicate negs.length 0 ∧
      d'.true_labels_fill = d.true_labels ++ List.replicate negs.length 0 ∧
      d'.train_labels_fill = d.train_labels ++ List.replicate negs.length 0 ∧
      d'.features = d.features ∧ d'.labels = d.labels ∧
      d'.true_labels = d.true_labels ∧ d'.train_labels = d.train_labels ∧
      d'.num_ng = d.num_ng ∧ d'.user_num = d.user_num ∧
      d'.item_num = d.item_num ∧ d'.is_training = d.is_training ∧
      d'.train_mat = d.train_mat := by
  unfold NCFDataset.ng_sample at h
  by_cases h2 : d.is_training = 2
  · rw [if_pos (by simpa using h2)] at h
    simp at h
  · rw [if_neg (by simpa using h2)] at h
    refine ⟨h2, ?_⟩
    by_cases h0 : d.num_ng = 0
    · rw [if_pos (by simpa using h0)] at h
      obtain rfl := Option.some.injEq .. ▸ h
      exact ⟨[], by simp [h0], by simp, by simp, by simp, by simp, by simp,
        rfl, rfl, rfl, rfl, rfl, rfl, rfl, rfl, rfl⟩
    · rw [if_neg (by simpa using h0)] at h
      cases hs : sampleReps d.train_mat d.item_num rng fuel d.features d.num_ng 0 with
      | none => rw [hs] at h; simp at h
      | some lk =>
        obtain ⟨negs, kf⟩ := lk
        rw [hs] at h
        obtain rfl := Option.some.injEq .. ▸ h
        obtain ⟨hlen, hmem⟩ :=
          sampleReps_spec d.train_mat d.item_num rng fuel d.features d.num_ng 0 negs kf hs
        exact ⟨negs, hlen, hmem, rfl, rfl, rfl, rfl,
          rfl, rfl, rfl, rfl, rfl, rfl, rfl, rfl, rfl⟩

/-! ### Lemmas about `flip_labels` -/

theorem flipVec_length (valid : List Nat) :
    ∀ (l : List Int) (k : Nat), (flipVec valid l k).length = l.length := by
  intro l
  induction l with
  | nil => intro k; rfl
  | cons v rest ih => intro k; simp [flipVec, ih]

theorem flipVec_getD (valid : List Nat) :
    ∀ (l : List Int) (k i : Nat), i < l.length →
      (flipVec valid l k).getD i 0 =
        if (k + i) ∈ valid then 1 - l.getD i 0 else l.getD i 0 := by
  intro l
  induction l with
  | nil => intro k i hi; simp at hi
  | cons v rest ih =>
    intro k i hi
    cases i with
    | zero => simp [flipVec]
    | succ m =>
      simp only [flipVec, List.getD_cons_succ]
      rw [ih (k + 1) m (by simpa using hi)]
      have : k + 1 + m = k + (m + 1) := by omega
      rw [this]

/-- Flipping is an involution position-wise: the numpy assignment
computes `1 - old` from the original array, so applying it twice with
the same valid-index list restores every entry (`1 - (1 - v) = v`). -/
theorem flipVec_flipVec (valid : List Nat) :
    ∀ (l : List Int) (k : Nat), flipVec valid (flipVec valid l k) k = l := by
  intro l
  induction l with
  | nil => intro k; rfl
  | cons v rest ih =>
    intro k
    simp only [flipVec]
    by_cases hk : k ∈ valid
    · simp [hk, ih]
    · simp [hk, ih]

/-! ### Lemmas for the constructor label counts -/

theorem replicate_one_filter_one (n : Nat) :
    ((List.replicate n (1 : Int)).filter (fun v => v == 1)).length = n := by
  induction n with
  | zero => rfl
  | succ m ih => simp [List.replicate, List.filter_cons, ih]

theorem replicate_one_filter_zero (n : Nat) :
    ((List.replicate n (1 : Int)).filter (fun v => v == 0)).length = 0 := by
  induction n with
  | zero => rfl
  | succ m ih => simp [List.replicate, List.filter_cons, ih]

theorem zip_replicate_one_filter (tl : List Int) (b : Int) :
    ((((List.replicate tl.length (1 : Int)).zip tl)).filter
      (fun p => p.1 == 1 && p.2 == b)).length =
    (tl.filter (fun v => v == b)).length := by
  induction tl with
  | nil => rfl
  | cons a rest ih =>
    simp only [List.length_cons, List.replicate, List.zip_cons_cons]
    by_cases hb : a = b
    · rw [filter_cons_length_pos _ _ _ (by simp [hb]),
        filter_cons_length_pos _ _ _ (by simp [hb]), ih]
    · rw [filter_cons_length_neg _ _ _ (by simp [hb]),
        filter_cons_length_neg _ _ _ (by simp [hb]), ih]

theorem zip_replicate_one_filter_zz (tl : List Int) (b : Int) :
    ((((List.replicate tl.length (1 : Int)).zip tl)).filter
      (fun p => p.1 == 0 && p.2 == b)).length = 0 := by
  induction tl with
  | nil => rfl
  | cons a rest ih =>
    simp only [List.length_cons, List.replicate, List.zip_cons_cons]
    rw [filter_cons_length_neg _ _ _ (by simp), ih]

/-! ### Claims -/

/-- C1.  For every entity count `N ≥ 1`, every `group_size ≥ 1` and
every similarity ranking satisfying the Similarity Provider contract,
after `assign_cluster_ids` every entity index in `[0, N)` has a
non-sentinel cluster id in `[0, cluster_num)` with
`cluster_num = ceil(N / group_size)`: the sentinel `-1` never survives
the repair pass. -/
theorem C1_cluster_coverage (N g : Nat) (rank : Nat → List Nat)
    (_hN : 1 ≤ N) (hg : 1 ≤ g) (hrank : ValidRanking N rank) :
    ∀ i, i < N →
      (assign_cluster_ids N g rank).getD i 0 ≠ -1 ∧
      0 ≤ (assign_cluster_ids N g rank).getD i 0 ∧
      (assign_cluster_ids N g rank).getD i 0 < (cluster_num N g : Int) := by
  intro i hi
  obtain ⟨h0, h1⟩ := assign_cluster_ids_bounds N g rank hg hrank i hi
  exact ⟨by omega, h0, h1⟩

theorem C1_cluster_coverage_witness :
    (1 ≤ 5 ∧ 1 ≤ 2 ∧ ValidRanking 5 rank5) ∧
    (∀ i, i < 5 →
      (assign_cluster_ids 5 2 rank5).getD i 0 ≠ -1 ∧
      0 ≤ (assign_cluster_ids 5 2 rank5).getD i 0 ∧
      (assign_cluster_ids 5 2 rank5).getD i 0 < (cluster_num 5 2 : Int)) :=
  ⟨⟨by omega, by omega, by unfold ValidRanking; decide⟩,
    C1_cluster_coverage 5 2 rank5 (by omega) (by omega)
      (by unfold ValidRanking; decide)⟩

/-- C2.  With `entity_count = 5` and `group_size = 2` and the ranking
`rank5` (a valid similarity ranking in which entity 0's most similar
other entity is 1 and entity 2's most similar other entity is 3),
`assign_cluster_ids` computes `cluster_num = 3` and produces exactly
the clusters `{0,1}` (id 0), `{2,3}` (id 1) and `{4}` (id 2): the
greedy loop exits with entity 4 still at the sentinel and
`cluster_id = 2`, and the repair pass assigns it id 2. -/
theorem C2_concrete_scenario :
    (ValidRanking 5 rank5 ∧
      (rank5 0).getD 1 0 = 1 ∧ (rank5 2).getD 1 0 = 3) ∧
    cluster_num 5 2 = 3 ∧
    assignLoop 5 2 rank5 (List.range 5) (List.replicate 5 (-1)) 0
      = ([0, 0, 1, 1, -1], 2) ∧
    assign_cluster_ids 5 2 rank5 = [0, 0, 1, 1, 2] :=
  ⟨⟨by unfold ValidRanking; decide, by decide, by decide⟩,
    by decide, by decide, by decide⟩

/-- C3.  The neighbor-wise constructors run `assign_cluster_ids` and
then assert `cluster_num == np.unique(clusters_per_sample).shape[0]`:
construction fails (assertion, modelled as `none`) exactly when the
number of distinct cluster ids actually used differs from
`cluster_num = ceil(entity_count / group_size)`, and succeeds exactly
when they are equal. -/
theorem C3_cluster_count_assertion (N g : Nat) (rank : Nat → List Nat)
    (hg : 1 ≤ g) :
    (NCF_NeighborWise_init N g rank = none ↔
      (assign_cluster_ids N g rank).dedup.length ≠ cluster_num N g) ∧
    (NCF_NeighborWise_init N g rank = some (assign_cluster_ids N g rank) ↔
      (assign_cluster_ids N g rank).dedup.length = cluster_num N g) := by
  unfold NCF_NeighborWise_init
  rw [if_neg (by omega)]
  by_cases h : cluster_num N g = (assign_cluster_ids N g rank).dedup.length
  · rw [if_pos (by simpa using h)]
    refine ⟨⟨fun hc => by simp at hc, fun hne => absurd h.symm hne⟩,
      ⟨fun _ => h.symm, fun _ => rfl⟩⟩
  · rw [if_neg (by simpa using h)]
    refine ⟨⟨fun _ heq => h heq.symm, fun _ => rfl⟩,
      ⟨fun hc => by simp at hc, fun heq => absurd heq.symm h⟩⟩

theorem C3_cluster_count_assertion_witness :
    (1 ≤ 2) ∧
    ((NCF_NeighborWise_init 5 2 rank5 = none ↔
      (assign_cluster_ids 5 2 rank5).dedup.length ≠ cluster_num 5 2) ∧
    (NCF_NeighborWise_init 5 2 rank5 = some (assign_cluster_ids 5 2 rank5) ↔
      (assign_cluster_ids 5 2 rank5).dedup.length = cluster_num 5 2)) :=
  ⟨by omega, C3_cluster_count_assertion 5 2 rank5 (by omega)⟩

/-- C9.  Flipping the same index list twice returns every training
label to its original value, for every index list (duplicates and
out-of-range indices included, thanks to the vectorised numpy
assignment semantics) and every starting label state in a non-evaluation
mode. -/
theorem C9_flip_involution (d : NCFDataset) (idxs : List Nat)
    (h : d.is_training ≠ 2) :
    (d.flip_labels idxs).bind (fun d1 => d1.flip_labels idxs) = some d := by
  have h1 : d.flip_labels idxs =
      some { d with train_labels := (flipVec (idxs.filter (fun i => i < d.train_labels.length)) d.train_labels 0) } := by
    unfold NCFDataset.flip_labels
    rw [if_neg (by simpa using h)]
  rw [h1]
  show NCFDataset.flip_labels
    { d with train_labels := (flipVec (idxs.filter (fun i => i < d.train_labels.length)) d.train_labels 0) } idxs = some d
  unfold NCFDataset.flip_labels
  rw [if_neg (by simpa using h)]
  simp only [flipVec_length]
  rw [flipVec_flipVec]

theorem C9_flip_involution_witness :
    (NCFDataset.init 1 2 [(0, 0)] [(0, 0)] [1] 0 1).is_training ≠ 2 ∧
    ((NCFDataset.init 1 2 [(0, 0)] [(0, 0)] [1] 0 1).flip_labels [0, 0, 5]).bind
      (fun d1 => d1.flip_labels [0, 0, 5]) =
      some (NCFDataset.init 1 2 [(0, 0)] [(0, 0)] [1] 0 1) :=
  ⟨by decide,
    C9_flip_involution (NCFDataset.init 1 2 [(0, 0)] [(0, 0)] [1] 0 1)
      [0, 0, 5] (by decide)⟩

/-- C7 counterexample.  In augmented mode the augmented length is 2
and index 1 addresses the negative row, whose filled training label is
0; the claim says `flip([1])` toggles it to 1.  The code instead cuts
off at `len(self.train_labels) = 1` (the positive-only array): the
call returns with *no* array changed — `flip_labels` operates on the
original training-label array, never on the filled one, and ignores
index 1 even though it is inside the augmented length. -/
theorem C7_counterexample :
    NCFDataset.len c7_d0 = 2 ∧
    c7_d0.ng_sample (fun _ => 1) 1 = some c7_d1 ∧
    c7_d1.train_labels_fill.getD 1 1 = 0 ∧
    c7_d1.flip_labels [1] = some c7_d1 ∧
    c7_d1.train_labels = [1] := by decide

/-- C7 as amended.  In any non-evaluation mode, `flip(indices)`
succeeds and toggles `train_labels[i] = 1 - train_labels[i]` on the
*original positive-only* training-label array for each listed index
`i < len(train_labels)`; indices at or beyond `len(train_labels)` —
in particular every index of the appended negative block — are
silently ignored, and the filled arrays are left untouched. -/
theorem C7_amended_flip (d d' : NCFDataset) (idxs : List Nat)
    (h2 : d.is_training ≠ 2) (h : d.flip_labels idxs = some d') :
    d'.train_labels.length = d.train_labels.length ∧
    (∀ i, i < d.train_labels.length →
      d'.train_labels.getD i 0 =
        if i ∈ idxs then 1 - d.train_labels.getD i 0
        else d.train_labels.getD i 0) ∧
    d'.train_labels_fill = d.train_labels_fill ∧
    d'.labels_fill = d.labels_fill ∧
    d'.true_labels_fill = d.true_labels_fill ∧
    d'.features_fill = d.features_fill ∧
    d'.labels = d.labels ∧
    d'.true_labels = d.true_labels := by
  unfold NCFDataset.flip_labels at h
  rw [if_neg (by simpa using h2)] at h
  obtain rfl := (Option.some.injEq .. ▸ h).symm
  refine ⟨flipVec_length _ _ _, ?_, rfl, rfl, rfl, rfl, rfl, rfl⟩
  intro i hi
  rw [flipVec_getD _ d.train_labels 0 i hi]
  simp only [Nat.zero_add]
  by_cases hmem : i ∈ idxs
  · rw [if_pos (List.mem_filter.mpr ⟨hmem, by simpa using hi⟩), if_pos hmem]
  · rw [if_neg (fun hc => hmem (List.mem_filter.mp hc).1), if_neg hmem]

theorem C7_amended_flip_witness :
    c7_d0.is_training ≠ 2 ∧
    c7_d0.flip_labels [0, 7] =
      some { c7_d0 with train_labels := [0] } ∧
    (({ c7_d0 with train_labels := [0] } : NCFDataset).train_labels.length =
        c7_d0.train_labels.length ∧
      (∀ i, i < c7_d0.train_labels.length →
        ({ c7_d0 with train_labels := [0] } : NCFDataset).train_labels.getD i 0 =
          if i ∈ [0, 7] then 1 - c7_d0.train_labels.getD i 0
          else c7_d0.train_labels.getD i 0) ∧
      ({ c7_d0 with train_labels := [0] } : NCFDataset).train_labels_fill =
        c7_d0.train_labels_fill ∧
      ({ c7_d0 with train_labels := [0] } : NCFDataset).labels_fill =
        c7_d0.labels_fill ∧
      ({ c7_d0 with train_labels := [0] } : NCFDataset).true_labels_fill =
        c7_d0.true_labels_fill ∧
      ({ c7_d0 with train_labels := [0] } : NCFDataset).features_fill =
        c7_d0.features_fill ∧
      ({ c7_d0 with train_labels := [0] } : NCFDataset).labels = c7_d0.labels ∧
      ({ c7_d0 with train_labels := [0] } : NCFDataset).true_labels =
        c7_d0.true_labels) :=
  ⟨by decide, by decide,
    C7_amended_flip c7_d0 { c7_d0 with train_labels := [0] } [0, 7]
      (by decide) (by decide)⟩

/-- C8 counterexample.  In evaluation mode `flip_labels` does raise
(`assert self.is_training != 2`), but `get_state` (summarize) contains
no mode check at all: on an evaluation-mode store it proceeds and
returns its counts normally instead of raising, so the claim that
*both* operations raise is false. -/
theorem C8_counterexample :
    c8_d.is_training = 2 ∧
    c8_d.flip_labels [0] = none ∧
    c8_d.get_state ≠ none ∧
    c8_d.get_state = some
      { pos_train := 1, neg_train := 0, true_pos := 1, true_neg := 0,
        false_pos := 0, false_neg := 0 } := by decide

/-- C8 as amended.  In evaluation mode `flip_labels` raises
immediately, while `get_state` (summarize) performs no mode check and
returns its confusion counts normally. -/
theorem C8_amended (d : NCFDataset) (idxs : List Nat)
    (h : d.is_training = 2) :
    d.flip_labels idxs = none ∧ d.get_state = some d.stateSummary := by
  constructor
  · unfold NCFDataset.flip_labels
    rw [if_pos (by simpa using h)]
  · rfl

theorem C8_amended_witness :
    c8_d.is_training = 2 ∧
    (c8_d.flip_labels [0] = none ∧ c8_d.get_state = some c8_d.stateSummary) :=
  ⟨by decide, C8_amended c8_d [0] (by decide)⟩

/-- C10.  At construction `NCF_Dataset` initialises both the observed
label array and the mutable training-label array to all ones —
regardless of the passed-in ground-truth labels — so before any flip,
`get_state` counts every sample whose true label is 0 as a false
positive (and reports all samples as training-positive). -/
theorem C10_initial_labels (user_num item_num : Nat)
    (features train_mat : List (Nat × Nat)) (true_labels : List Int)
    (mode num_ng : Nat) (hlen : true_labels.length = features.length) :
    (NCFDataset.init user_num item_num features train_mat true_labels
        mode num_ng).labels = List.replicate features.length 1 ∧
    (NCFDataset.init user_num item_num features train_mat true_labels
        mode num_ng).train_labels = List.replicate features.length 1 ∧
    (NCFDataset.init user_num item_num features train_mat true_labels
        mode num_ng).stateSummary.false_pos =
      (true_labels.filter (fun v => v == 0)).length ∧
    (NCFDataset.init user_num item_num features train_mat true_labels
        mode num_ng).stateSummary.true_pos =
      (true_labels.filter (fun v => v == 1)).length ∧
    (NCFDataset.init user_num item_num features train_mat true_labels
        mode num_ng).stateSummary.false_neg = 0 ∧
    (NCFDataset.init user_num item_num features train_mat true_labels
        mode num_ng).stateSummary.pos_train = features.length ∧
    (NCFDataset.init user_num item_num features train_mat true_labels
        mode num_ng).stateSummary.neg_train = 0 := by
  refine ⟨rfl, rfl, ?_, ?_, ?_, ?_, ?_⟩ <;>
    simp only [NCFDataset.init, NCFDataset.stateSummary] <;>
    rw [← hlen]
  · exact zip_replicate_one_filter true_labels 0
  · exact zip_replicate_one_filter true_labels 1
  · exact zip_replicate_one_filter_zz true_labels 1
  · rw [replicate_one_filter_one, hlen]
  · exact replicate_one_filter_zero true_labels.length

theorem C10_initial_labels_witness :
    ([ (1 : Int), 0, 1 ] : List Int).length = ([(0, 0), (0, 1), (1, 1)] : List (Nat × Nat)).length ∧
    ((NCFDataset.init 2 2 [(0, 0), (0, 1), (1, 1)] [(0, 0)] [1, 0, 1]
        0 1).labels = List.replicate 3 1 ∧
    (NCFDataset.init 2 2 [(0, 0), (0, 1), (1, 1)] [(0, 0)] [1, 0, 1]
        0 1).train_labels = List.replicate 3 1 ∧
    (NCFDataset.init 2 2 [(0, 0), (0, 1), (1, 1)] [(0, 0)] [1, 0, 1]
        0 1).stateSummary.false_pos =
      (([1, 0, 1] : List Int).filter (fun v => v == 0)).length ∧
    (NCFDataset.init 2 2 [(0, 0), (0, 1), (1, 1)] [(0, 0)] [1, 0, 1]
        0 1).stateSummary.true_pos =
      (([1, 0, 1] : List Int).filter (fun v => v == 1)).length ∧
    (NCFDataset.init 2 2 [(0, 0), (0, 1), (1, 1)] [(0, 0)] [1, 0, 1]
        0 1).stateSummary.false_neg = 0 ∧
    (NCFDataset.init 2 2 [(0, 0), (0, 1), (1, 1)] [(0, 0)] [1, 0, 1]
        0 1).stateSummary.pos_train = ([(0, 0), (0, 1), (1, 1)] : List (Nat × Nat)).length ∧
    (NCFDataset.init 2 2 [(0, 0), (0, 1), (1, 1)] [(0, 0)] [1, 0, 1]
        0 1).stateSummary.neg_train = 0) :=
  ⟨by decide,
    C10_initial_labels 2 2 [(0, 0), (0, 1), (1, 1)] [(0, 0)] [1, 0, 1]
      0 1 (by decide)⟩

/-- C5.  On every successful `ng_sample` call with `num_negatives ≥ 1`
(and label arrays matching `features` in length, as numpy enforces),
every generated negative pair is not a positive interaction of the
interaction matrix, every negative row carries observed label 0,
ground-truth label 0 and training label 0, and all negative rows sit
after all positive rows (the first `len(features)` rows of the
augmented arrays are exactly the positives). -/
theorem C5_negative_sampling (d d' : NCFDataset) (rng : Nat → Nat)
    (fuel : Nat) (_hng : 1 ≤ d.num_ng) (hwf : WellFormed d)
    (h : d.ng_sample rng fuel = some d') :
    d'.features_fill.take d.features.length = d.features ∧
    (∀ r, d.features.length ≤ r → r < d'.features_fill.length →
      d'.features_fill.getD r (0, 0) ∉ d.train_mat ∧
      d'.labels_fill.getD r 1 = 0 ∧
      d'.true_labels_fill.getD r 1 = 0 ∧
      d'.train_labels_fill.getD r 1 = 0) := by
  obtain ⟨hmode, negs, hnlen, hnmem, hff, hlf, htf, hrf, _, _, _, _, _, _, _, _, _⟩ :=
    ng_sample_some d d' rng fuel h
  obtain ⟨hwl, hwt, hwr⟩ := hwf
  constructor
  · rw [hff]
    exact List.take_left d.features negs
  · intro r hr hrlt
    rw [hff] at hrlt
    rw [List.length_append] at hrlt
    have hrn : r - d.features.length < negs.length := by omega
    constructor
    · rw [hff, getD_append_right d.features negs r (0, 0) hr]
      have hmem := getD_mem negs (r - d.features.length) (0, 0) hrn
      exact (hnmem _ hmem).2.1
    · refine ⟨?_, ?_, ?_⟩
      · rw [hlf, getD_append_right d.labels _ r 1 (by omega),
          getD_replicate negs.length _ 0 1 (by omega)]
      · rw [htf, getD_append_right d.true_labels _ r 1 (by omega),
          getD_replicate negs.length _ 0 1 (by omega)]
      · rw [hrf, getD_append_right d.train_labels _ r 1 (by omega),
          getD_replicate negs.length _ 0 1 (by omega)]

theorem C5_negative_sampling_witness :
    (1 ≤ c5_d0.num_ng ∧ WellFormed c5_d0 ∧
      c5_d0.ng_sample (fun k => k) 2 = some c5_d1) ∧
    (c5_d1.features_fill.take c5_d0.features.length = c5_d0.features ∧
    (∀ r, c5_d0.features.length ≤ r → r < c5_d1.features_fill.length →
      c5_d1.features_fill.getD r (0, 0) ∉ c5_d0.train_mat ∧
      c5_d1.labels_fill.getD r 1 = 0 ∧
      c5_d1.true_labels_fill.getD r 1 = 0 ∧
      c5_d1.train_labels_fill.getD r 1 = 0)) :=
  ⟨⟨by decide, ⟨by decide, by decide, by decide⟩, by decide⟩,
    C5_negative_sampling c5_d0 c5_d1 (fun k => k) 2 (by decide)
      ⟨by decide, by decide, by decide⟩ (by decide)⟩

/-- C6.  After every successful `ng_sample`, the augmented feature and
label arrays all have length `len(features) * (num_ng + 1)` — the
total length reported by `__len__` — for every `num_ng ≥ 0`; and when
`num_ng = 0` the augmented arrays are exactly the original positive
arrays, unchanged. -/
theorem C6_augmentation_length (d d' : NCFDataset) (rng : Nat → Nat)
    (fuel : Nat) (hwf : WellFormed d) (h : d.ng_sample rng fuel = some d') :
    d'.features_fill.length = d.features.length * (d.num_ng + 1) ∧
    d'.labels_fill.length = d.features.length * (d.num_ng + 1) ∧
    d'.true_labels_fill.length = d.features.length * (d.num_ng + 1) ∧
    d'.train_labels_fill.length = d.features.length * (d.num_ng + 1) ∧
    d'.features_fill.length = d.len ∧
    (d.num_ng = 0 →
      d'.features_fill = d.features ∧ d'.labels_fill = d.labels ∧
      d'.true_labels_fill = d.true_labels ∧
      d'.train_labels_fill = d.train_labels) := by
  obtain ⟨hmode, negs, hnlen, hnmem, hff, hlf, htf, hrf, _, _, _, _, _, _, _, _, _⟩ :=
    ng_sample_some d d' rng fuel h
  obtain ⟨hwl, hwt, hwr⟩ := hwf
  have hflen : d'.features_fill.length = d.features.length * (d.num_ng + 1) := by
    rw [hff, List.length_append, hnlen]
    ring
  refine ⟨hflen, ?_, ?_, ?_, hflen, ?_⟩
  · rw [hlf, List.length_append, List.length_replicate, hwl, hnlen]; ring
  · rw [htf, List.length_append, List.length_replicate, hwt, hnlen]; ring
  · rw [hrf, List.length_append, List.length_replicate, hwr, hnlen]; ring
  · intro h0
    have : negs = [] := by
      rw [← List.length_eq_zero, hnlen, h0]
      ring
    subst this
    simp only [List.length_nil, List.replicate_zero, List.append_nil] at hff hlf htf hrf
    exact ⟨hff, hlf, htf, hrf⟩

theorem C6_augmentation_length_witness :
    (WellFormed c6_d0 ∧ c6_d0.ng_sample (fun k => k) 1 = some c6_d1) ∧
    (c6_d1.features_fill.length = c6_d0.features.length * (c6_d0.num_ng + 1) ∧
    c6_d1.labels_fill.length = c6_d0.features.length * (c6_d0.num_ng + 1) ∧
    c6_d1.true_labels_fill.length = c6_d0.features.length * (c6_d0.num_ng + 1) ∧
    c6_d1.train_labels_fill.length = c6_d0.features.length * (c6_d0.num_ng + 1) ∧
    c6_d1.features_fill.length = c6_d0.len ∧
    (c6_d0.num_ng = 0 →
      c6_d1.features_fill = c6_d0.features ∧ c6_d1.labels_fill = c6_d0.labels ∧
      c6_d1.true_labels_fill = c6_d0.true_labels ∧
      c6_d1.train_labels_fill = c6_d0.train_labels)) :=
  ⟨⟨⟨by decide, by decide, by decide⟩, by decide⟩,
    C6_augmentation_length c6_d0 c6_d1 (fun k => k) 1
      ⟨by decide, by decide, by decide⟩ (by decide)⟩

theorem getD_irrel {α : Type} (l : List α) (n : Nat) (d d' : α)
    (h : n < l.length) : l.getD n d = l.getD n d' := by
  induction l generalizing n with
  | nil => simp at h
  | cons a t ih =>
    cases n with
    | zero => rfl
    | succ m =>
      simp only [List.getD_cons_succ]
      exact ih m (by simpa using h)

/-- What `NCF_NeighborWise_Dataset.ng_sample` guarantees on success:
the base sampler succeeded on the underlying dataset, and
`cluster_ids_fill` is `clusters_per_sample` indexed by the grouping
entity of every augmented row; the clustering fields are untouched. -/
theorem neighbor_ng_sample_some (nd nd' : NeighborDataset) (rng : Nat → Nat)
    (fuel : Nat) (h : nd.ng_sample rng fuel = some nd') :
    nd.toNCFDataset.ng_sample rng fuel = some nd'.toNCFDataset ∧
    nd'.cluster_ids_fill = nd'.features_fill.map
      (fun p => nd.clusters_per_sample.getD (nd.rowEntity p) (-1)) ∧
    nd'.clusters_per_sample = nd.clusters_per_sample ∧
    nd'.cluster_num = nd.cluster_num ∧
    nd'.neighbor_type = nd.neighbor_type ∧
    nd'.group_size = nd.group_size := by
  unfold NeighborDataset.ng_sample at h
  cases hbase : nd.toNCFDataset.ng_sample rng fuel with
  | none => rw [hbase] at h; simp at h
  | some d' =>
    rw [hbase] at h
    dsimp only at h
    have hnd : nd' = { nd with toNCFDataset := d', cluster_ids_fill := (d'.features_fill.map (fun p => nd.clusters_per_sample.getD (nd.rowEntity p) (-1))) } :=
      (Option.some_inj.mp h).symm
    subst hnd
    exact ⟨rfl, rfl, rfl, rfl, rfl, rfl⟩

/-- C4.  After a successful `ng_sample`, for each of the four grouped
views — pointwise, user-wise, item-wise and cluster-wise — every
augmented row index belongs to the `original_row_indices` of exactly
one group id inside `[0, group_count())`: the groups partition the
augmented row set with no overlap and no omission.  (Hypotheses: the
positive pairs are in range, and the clustering fields were produced
by `assign_cluster_ids` from a contract-satisfying similarity
ranking, as the constructor does.) -/
theorem C4_grouped_view_partition (nd nd' : NeighborDataset)
    (rng : Nat → Nat) (fuel : Nat) (rank : Nat → List Nat)
    (hg : 1 ≤ nd.group_size)
    (hrank : ValidRanking nd.entityCount rank)
    (hclu : nd.clusters_per_sample =
      assign_cluster_ids nd.entityCount nd.group_size rank)
    (hnum : nd.cluster_num = cluster_num nd.entityCount nd.group_size)
    (hfeat : ∀ p ∈ nd.features, p.1 < nd.user_num ∧ p.2 < nd.item_num)
    (h : nd.ng_sample rng fuel = some nd') :
    ∀ r, r < nd'.features_fill.length →
      (∃! t, t < nd'.toNCFDataset.len ∧ r ∈ pointGroupIdx nd'.toNCFDataset t) ∧
      (∃! u, u < nd'.user_num ∧ r ∈ userGroupIdx nd'.toNCFDataset u) ∧
      (∃! i, i < nd'.item_num ∧ r ∈ itemGroupIdx nd'.toNCFDataset i) ∧
      (∃! c, c < nd'.cluster_num ∧ r ∈ clusterGroupIdx nd' c) := by
  obtain ⟨hbase, hcif, hcps, hcn, hnt, hgs⟩ :=
    neighbor_ng_sample_some nd nd' rng fuel h
  obtain ⟨hmode, negs, hnlen, hnmem, hff, hlf, htf, hrf, hfeq, hleq, hteq,
    hreq, hnng, hun, hin, hmode2, hmeq⟩ :=
    ng_sample_some nd.toNCFDataset nd'.toNCFDataset rng fuel hbase
  have hrowb : ∀ p ∈ nd'.features_fill,
      p.1 < nd.user_num ∧ p.2 < nd.item_num := by
    intro p hp
    rw [hff] at hp
    rcases List.mem_append.mp hp with h1 | h2
    · exact hfeat p h1
    · obtain ⟨⟨q, hq, hpq⟩, _, hitem⟩ := hnmem p h2
      have hq' := hfeat q hq
      have hipos : 0 < nd.toNCFDataset.item_num :=
        lt_of_le_of_lt (Nat.zero_le _) hq'.2
      exact ⟨hpq ▸ hq'.1, hitem hipos⟩
  intro r hr
  have hpmem : nd'.features_fill.getD r (0, 0) ∈ nd'.features_fill :=
    getD_mem nd'.features_fill r (0, 0) hr
  have hpb := hrowb _ hpmem
  have hlenF : nd'.toNCFDataset.len = nd'.features_fill.length := by
    unfold NCFDataset.len
    rw [hfeq, hnng, hff, List.length_append, hnlen]
    ring
  refine ⟨?_, ?_, ?_, ?_⟩
  · -- pointwise: each row is its own group
    refine ⟨r, ⟨by omega, by simp [pointGroupIdx]⟩, ?_⟩
    intro t ⟨_, ht⟩
    simpa [pointGroupIdx, eq_comm] using ht
  · -- user-wise: the unique group of row `r` is its user
    refine ⟨(nd'.features_fill.getD r (0, 0)).1, ⟨by rw [hun]; exact hpb.1, ?_⟩, ?_⟩
    · unfold userGroupIdx
      exact List.mem_filter.mpr ⟨List.mem_range.mpr hr, beq_self_eq_true _⟩
    · intro u hu
      unfold userGroupIdx at hu
      exact (eq_of_beq (List.mem_filter.mp hu.2).2).symm
  · -- item-wise: the unique group of row `r` is its item
    refine ⟨(nd'.features_fill.getD r (0, 0)).2, ⟨by rw [hin]; exact hpb.2, ?_⟩, ?_⟩
    · unfold itemGroupIdx
      exact List.mem_filter.mpr ⟨List.mem_range.mpr hr, beq_self_eq_true _⟩
    · intro i hi
      unfold itemGroupIdx at hi
      exact (eq_of_beq (List.mem_filter.mp hi.2).2).symm
  · -- cluster-wise: the unique group is the cluster id of the row's
    -- grouping entity, in range by the coverage result
    have hclen : nd.clusters_per_sample.length = nd.entityCount := by
      rw [hclu]; exact assign_cluster_ids_length ..
    have he : nd.rowEntity (nd'.features_fill.getD r (0, 0)) < nd.entityCount := by
      unfold NeighborDataset.rowEntity NeighborDataset.entityCount
      cases nd.neighbor_type
      · exact hpb.1
      · exact hpb.2
    have hbounds := assign_cluster_ids_bounds nd.entityCount nd.group_size
      rank hg hrank (nd.rowEntity (nd'.features_fill.getD r (0, 0))) he
    rw [← hclu] at hbounds
    have hvr : nd'.cluster_ids_fill.getD r 0 =
        nd.clusters_per_sample.getD
          (nd.rowEntity (nd'.features_fill.getD r (0, 0))) 0 := by
      rw [hcif, getD_map _ nd'.features_fill r 0 (0, 0) hr]
      exact getD_irrel _ _ _ _ (by omega)
    set v := nd.clusters_per_sample.getD
      (nd.rowEntity (nd'.features_fill.getD r (0, 0))) 0 with hv
    obtain ⟨hv0, hvK⟩ := hbounds
    have hcast : v = ((v.toNat : Nat) : Int) := (Int.toNat_of_nonneg hv0).symm
    refine ⟨v.toNat, ⟨?_, ?_⟩, ?_⟩
    · rw [hcn, hnum]
      omega
    · unfold clusterGroupIdx
      refine List.mem_filter.mpr ⟨List.mem_range.mpr hr, ?_⟩
      rw [hvr, hcast]
      exact beq_self_eq_true _
    · intro c hc
      unfold clusterGroupIdx at hc
      have hc2 := (List.mem_filter.mp hc.2).2
      rw [hvr] at hc2
      have hveq : v = (c : Int) := eq_of_beq hc2
      omega

theorem C4_grouped_view_partition_witness :
    (1 ≤ c4_nd0.group_size ∧
      ValidRanking c4_nd0.entityCount rank2 ∧
      c4_nd0.clusters_per_sample =
        assign_cluster_ids c4_nd0.entityCount c4_nd0.group_size rank2 ∧
      c4_nd0.cluster_num = cluster_num c4_nd0.entityCount c4_nd0.group_size ∧
      (∀ p ∈ c4_nd0.features, p.1 < c4_nd0.user_num ∧ p.2 < c4_nd0.item_num) ∧
      c4_nd0.ng_sample (fun k => k) 2 = some c4_nd1) ∧
    (∀ r, r < c4_nd1.features_fill.length →
      (∃! t, t < c4_nd1.toNCFDataset.len ∧ r ∈ pointGroupIdx c4_nd1.toNCFDataset t) ∧
      (∃! u, u < c4_nd1.user_num ∧ r ∈ userGroupIdx c4_nd1.toNCFDataset u) ∧
      (∃! i, i < c4_nd1.item_num ∧ r ∈ itemGroupIdx c4_nd1.toNCFDataset i) ∧
      (∃! c, c < c4_nd1.cluster_num ∧ r ∈ clusterGroupIdx c4_nd1 c)) :=
  ⟨⟨by decide, by unfold ValidRanking; decide, by decide, by decide,
      by decide, by decide⟩,
    C4_grouped_view_partition c4_nd0 c4_nd1 (fun k => k) 2 rank2
      (by decide) (by unfold ValidRanking; decide) (by decide) (by decide)
      (by decide) (by decide)⟩

end AdaptFlip
